import Mathlib

/-!
Shallow embedding of the RustPython `compiler-core` generators:
`crates/compiler-core/tools/opargs_generator.py` (oparg type registry) and
`crates/compiler-core/generate.py` (instruction model builder, deopt
resolver, iteration order).  Pure data flowing through those generators is
modelled as Lean lists and functions; the generated Rust conversions are
modelled by their semantics (match over declared encodings).
-/

deriving instance DecidableEq for Except

namespace OpcodeGen

/-- Modelled from the spec: the crate error type `crate::MarshalError` lives
outside the generator sources; the generators reference only its
`InvalidBytecode` variant (`opargs_generator.py` line 27, `ERR`), while the
spec additionally names a distinct `InvalidOperand` runtime failure.  Both
are included so that distinguishability is statable. -/
inductive MarshalError where
  | InvalidBytecode
  | InvalidOperand
deriving DecidableEq, Repr

/-- Declared encodings of `CmpOp.flags` (`opargs_generator.py` lines 336-360):
`Cmp` is an `IntFlag` with `Unordered = 1`, `LessThan = 2`, `GreaterThan = 4`,
`Equals = 8`, `NotEquals = 7`, and the members combine those bits. -/
def cmpOpFlags : List (String × Nat) :=
  [("Lt", 2), ("Le", 10), ("Eq", 8), ("Ne", 7), ("Gt", 4), ("Ge", 12)]

/-- Declared encodings of `BuildSlice.flags`: explicit values 2 and 3. -/
def buildSliceFlags : List (String × Nat) :=
  [("Two", 2), ("Three", 3)]

/-- Declared encodings of `Resume.flags`: `enum.auto()` under `DocEnum`, whose
`_generate_next_value_` returns the member count, so values start at 0. -/
def resumeFlags : List (String × Nat) :=
  [("AtFuncStart", 0), ("AfterYield", 1), ("AfterYieldFrom", 2), ("AfterAwait", 3)]

/-- Declared encodings of `BinOp.flags`: count-valued `enum.auto()`, 0..25. -/
def binOpFlags : List (String × Nat) :=
  [("Add", 0), ("And", 1), ("FloorDivide", 2), ("Lshift", 3),
   ("MatrixMultiply", 4), ("Multiply", 5), ("Remainder", 6), ("Or", 7),
   ("Power", 8), ("Rshift", 9), ("Subtract", 10), ("TrueDivide", 11),
   ("Xor", 12), ("InplaceAdd", 13), ("InplaceAnd", 14),
   ("InplaceFloorDivide", 15), ("InplaceLshift", 16),
   ("InplaceMatrixMultiply", 17), ("InplaceMultiply", 18),
   ("InplaceRemainder", 19), ("InplaceOr", 20), ("InplacePower", 21),
   ("InplaceRshift", 22), ("InplaceSubtract", 23), ("InplaceTrueDivide", 24),
   ("InplaceXor", 25)]

/-- Declared encodings of `CallIntrinsic1.flags`: count-valued, 0..11. -/
def callIntrinsic1Flags : List (String × Nat) :=
  [("Invalid", 0), ("Print", 1), ("ImportStar", 2), ("StopIterationError", 3),
   ("AsyncGenWrap", 4), ("UnaryPositive", 5), ("ListToTuple", 6),
   ("TypeVar", 7), ("ParamSpec", 8), ("TypeVarTuple", 9),
   ("SubscriptGeneric", 10), ("TypeAlias", 11)]

/-- Declared encodings of `CallIntrinsic2.flags`: count-valued, 0..4. -/
def callIntrinsic2Flags : List (String × Nat) :=
  [("Invalid", 0), ("PrepReraiseStar", 1), ("TypeVarWithBound", 2),
   ("TypeVarWithConstraint", 3), ("SetFunctionTypeParams", 4)]

/-- Declared encodings of `RaiseVarargs.flags`: count-valued, 0..2. -/
def raiseVarargsFlags : List (String × Nat) :=
  [("Reraise", 0), ("Raise", 1), ("RaiseCause", 2)]

/-- Declared encodings of `SetFunctionAttribute.flags`: the class restores
`enum.IntFlag._generate_next_value_`, so `enum.auto()` yields powers of two. -/
def setFunctionAttributeFlags : List (String × Nat) :=
  [("Defaults", 1), ("KwDefaults", 2), ("Annotations", 4), ("Closure", 8)]

/-- Declared encodings of `ConvertValue.flags`: count-valued, 0..3 (the first
member is renamed from `_None` to `None`). -/
def convertValueFlags : List (String × Nat) :=
  [("None", 0), ("Str", 1), ("Repr", 2), ("Ascii", 3)]

/-- Declared encodings of `Invert.flags`: count-valued, 0..1. -/
def invertFlags : List (String × Nat) :=
  [("No", 0), ("Yes", 1)]

/-- Declared encodings of `Where.flags`: count-valued, 0..2. -/
def whereFlags : List (String × Nat) :=
  [("NoWhere", 0), ("AfterAEnter", 1), ("AfterAExit", 2)]

/-- All named oparg types declared in `opargs_generator.py` (the
`NamedOpargType` subclasses), each given by its ordered flag list. -/
def allNamedOpargTypes : List (List (String × Nat)) :=
  [cmpOpFlags, buildSliceFlags, resumeFlags, binOpFlags, callIntrinsic1Flags,
   callIntrinsic2Flags, raiseVarargsFlags, setFunctionAttributeFlags,
   convertValueFlags, invertFlags, whereFlags]

/-- Semantics of the generated `TryFrom<u32>` impl
(`NamedOpargType.trait_try_from_inner`, `opargs_generator.py` lines 284-303):
one match arm `value => Self::Name` per declared member, in declaration
order, and a default arm returning `Err(crate::MarshalError::InvalidBytecode)`
(the `ERR` constant of line 27). -/
def tryFromInner (flags : List (String × Nat)) (value : Nat) :
    Except MarshalError String :=
  match flags.find? (fun m => m.2 == value) with
  | some m => .ok m.1
  | none => .error .InvalidBytecode

/-- Semantics of the generated `TryFrom<CompareOparg> for CmpOp`
(`CmpOp.trait_try_from_compare`, lines 362-374): shift the 32-bit raw value
right by 5 and decode through `TryFrom<u32>`. -/
def cmpOpTryFromCompare (value : Nat) : Except MarshalError String :=
  tryFromInner cmpOpFlags ((value % 2 ^ 32) >>> 5)

/-- Per-instruction boolean properties, mirroring the fields of the external
analyzer record that `generate.py` reads (`prop.oparg`, `prop.jumps`, ...). -/
structure Properties where
  oparg : Bool
  jumps : Bool
  uses_co_consts : Bool
  uses_co_names : Bool
  uses_locals : Bool
  has_free : Bool
  is_pure : Bool
deriving DecidableEq, Repr

/-- The `Oparg` string enum of `generate.py` (lines 81-95): the operand type
assigned to an instruction case. -/
inductive Oparg where
  | NameIdx
  | ConstIdx
  | Delta
  | Raw
  | Resume
  | Compare
  | BinaryOperator
  | RaiseVarArgs
  | CallIntrinsic1
  | CallIntrinsic2
  | UnpackEx
deriving DecidableEq, Repr

/-- `Oparg.try_from_instruction` (`generate.py` lines 96-127): `None` when the
instruction has no oparg property; otherwise a per-name override, then the
property-driven fallback chain. -/
def Oparg.tryFromInstruction (name : String) (prop : Properties) : Option Oparg :=
  if !prop.oparg then none
  else if name == "BINARY_OP" then some .BinaryOperator
  else if name == "RESUME" then some .Resume
  else if name == "RAISE_VARARGS" then some .RaiseVarArgs
  else if name == "CALL_INTRINSIC_1" then some .CallIntrinsic1
  else if name == "CALL_INTRINSIC_2" then some .CallIntrinsic2
  else if name == "UNPACK_EX" then some .UnpackEx
  else if prop.jumps then some .Delta
  else if prop.uses_co_consts then some .ConstIdx
  else if prop.uses_co_names then some .NameIdx
  else some .Raw

/-- An instruction definition as `generate.py`'s `Inst` wrapper sees it: a
name, the optional declared specialization family (by name), and the
analyzer properties.  Name-casing (`title().replace`) is applied uniformly to
both `name` and `family` in the source, so names are kept abstract here. -/
structure Inst where
  name : String
  family : Option String
  props : Properties
deriving DecidableEq, Repr

/-- `Inst.deopt` (`generate.py` lines 147-152): the declared family's name if
a family is declared, otherwise the instruction's own name (one step only). -/
def Inst.deoptName (i : Inst) : String :=
  i.family.getD i.name

/-- `InstructionsMeta.name_table` (lines 211-213): name-indexed lookup over
the iterated instructions. -/
def nameTable (insts : List Inst) (n : String) : Option Inst :=
  insts.find? (fun i => i.name == n)

/-- `InstructionsMeta.deopt_table` (lines 215-221): every instruction whose
one-step deopt name differs from its own name, mapped to that deopt name. -/
def deoptTable (insts : List Inst) : List (String × String) :=
  (insts.filter (fun i => i.name != i.deoptName)).map
    (fun i => (i.name, i.deoptName))

/-- Semantics of the generated `fn deopt` (`RealInstructions.fn_deopt`, lines
358-377): one match arm per deopt-table entry mapping the specialized case to
its table target, and a default arm returning `None`. -/
def genDeopt (insts : List Inst) (x : String) : Option String :=
  (deoptTable insts).lookup x

/-- The spec's total deopt target of an instruction case: the generated
`deopt` result when the case is specialized, the case itself otherwise. -/
def deoptTotal (insts : List Inst) (x : String) : String :=
  (genDeopt insts x).getD x

/-- `Inst.oparg` (`generate.py` lines 154-165): if the instruction appears in
the deopt table, recursively take the oparg of its deopt target (looked up in
the name table), otherwise `Oparg.try_from_instruction`.  The source recursion
is unbounded, so it is modelled with explicit fuel: the outer `none` marks a
computation that exceeds the given recursion depth (or a missing name-table
entry, which raises in the source). -/
def opargFuel (table : List (String × String)) (insts : List Inst) :
    Nat → Inst → Option (Option Oparg)
  | 0, _ => none
  | n + 1, i =>
    match table.lookup i.name with
    | some target =>
      match nameTable insts target with
      | some j => opargFuel table insts n j
      | none => none
    | none => some (Oparg.tryFromInstruction i.name i.props)

/-- The chain of declared families followed by `Inst.oparg`, with the same
fuel discipline: resolve to the first instruction absent from the deopt
table. -/
def resolveFuel (table : List (String × String)) (insts : List Inst) :
    Nat → Inst → Option Inst
  | 0, _ => none
  | n + 1, i =>
    match table.lookup i.name with
    | some target =>
      match nameTable insts target with
      | some j => resolveFuel table insts n j
      | none => none
    | none => some i

/-- Lexicographic comparison of character lists by code point: the order
Python's `sorted` uses on `str` keys. -/
def charListLe : List Char → List Char → Bool
  | [], _ => true
  | _ :: _, [] => false
  | a :: as, b :: bs =>
    if a.toNat < b.toNat then true
    else if b.toNat < a.toNat then false
    else charListLe as bs

/-- Python's `<=` on strings, by code points. -/
def pyStrLe (a b : String) : Bool :=
  charListLe a.data b.data

/-- The sort key relation of the `__iter__` methods: compare instructions by
name. -/
def instLe (a b : Inst) : Prop :=
  pyStrLe a.name b.name = true

instance : DecidableRel instLe := fun a b => by
  unfold instLe; infer_instance

/-- The extra instruction appended to the real set
(`analyzer.Instruction("INSTRUMENTED_LINE", [], None)`, line 315): no parts
and no family, hence all-false properties. -/
def instrumentedLine : Inst :=
  ⟨"INSTRUMENTED_LINE", none, ⟨false, false, false, false, false, false, false⟩⟩

/-- `RealInstructions.__iter__` (lines 309-319): the analyzer's real
instructions chained with `INSTRUMENTED_LINE`, sorted by instruction name
(Python `sorted` with `key=lambda inst: inst.name`, a stable sort). -/
def iterReal (insts : List Inst) : List Inst :=
  List.insertionSort instLe (insts ++ [instrumentedLine])

/-- `PseudoInstructions.__iter__` (lines 384-387): the analyzer's pseudo
instructions sorted by instruction name. -/
def iterPseudo (insts : List Inst) : List Inst :=
  List.insertionSort instLe insts

/-- The enum variant list emitted by `InstructionsMeta.rust_code` (lines
223-261) for the real set: each iterated instruction becomes one case whose
discriminant is `opmap[name]` and whose payload is `inst.oparg(deopt_table)`
resolved at depth `fuel`. -/
def realVariants (insts : List Inst) (opmap : String → Nat) (fuel : Nat) :
    List (String × Option (Option Oparg) × Nat) :=
  (iterReal insts).map
    (fun i => (i.name, opargFuel (deoptTable (iterReal insts)) (iterReal insts) fuel i,
               opmap i.name))

/-- The `(case, opcode)` pairs of the emitted enum for the real set. -/
def caseList (insts : List Inst) (opmap : String → Nat) : List (String × Nat) :=
  (iterReal insts).map (fun i => (i.name, opmap i.name))

/-- The `(case, opcode)` pairs of the emitted enum for the pseudo set. -/
def caseListPseudo (insts : List Inst) (opmap : String → Nat) :
    List (String × Nat) :=
  (iterPseudo insts).map (fun i => (i.name, opmap i.name))

/-- The total case-to-opcode projection of an emitted enum: the discriminant
attached to the case (`#[repr(u8)]` / `as` cast on the generated enum). -/
def toOpcode (variants : List (String × Nat)) (c : String) : Option Nat :=
  variants.lookup c

/-- Modelled from the spec: the fallible opcode-to-case injection for the
emitted enums (`TryFrom` on the generated instruction enums) lives in the
crate, not in the generator sources; per the spec it selects the case with
the given discriminant and fails with `InvalidBytecode` otherwise. -/
def fromOpcode (variants : List (String × Nat)) (n : Nat) :
    Except MarshalError String :=
  match variants.find? (fun v => v.2 == n) with
  | some v => .ok v.1
  | none => .error .InvalidBytecode

/-- Semantics of the generated `has_arg`
(`InstructionsMeta.build_has_attr_fn` + `fn_has_arg`, lines 263-284): a
`matches!` over every iterated instruction whose `properties.oparg` is set,
i.e. true exactly when the case's name is among those instructions. -/
def hasArgFn (insts : List Inst) (c : String) : Bool :=
  insts.any (fun i => i.props.oparg && i.name == c)

/-! Helper lemmas about first-match lookup over `(name, value)` pair lists,
shared by the oparg decoders and the opcode injection. -/

theorem findByVal_eq_none {l : List (String × Nat)} {n : Nat}
    (h : n ∉ l.map Prod.snd) : l.find? (fun v => v.2 == n) = none := by
  rw [List.find?_eq_none]
  intro x hx
  simp only [beq_iff_eq]
  intro hxn
  exact h (hxn ▸ List.mem_map_of_mem Prod.snd hx)

theorem findByVal_mem {l : List (String × Nat)} {c : String} {n : Nat}
    (hnd : (l.map Prod.snd).Nodup) (hm : (c, n) ∈ l) :
    l.find? (fun v => v.2 == n) = some (c, n) := by
  induction l with
  | nil => cases hm
  | cons a l ih =>
    rw [List.map_cons, List.nodup_cons] at hnd
    rcases List.mem_cons.1 hm with h | h
    · subst h
      simp [List.find?_cons]
    · have hne : (a.2 == n) = false := by
        simp only [beq_eq_false_iff_ne, ne_eq]
        intro han
        exact hnd.1 (han ▸ List.mem_map_of_mem Prod.snd h)
      rw [List.find?_cons, hne]
      exact ih hnd.2 h

theorem findByVal_some {l : List (String × Nat)} {v : String × Nat} {n : Nat}
    (h : l.find? (fun w => w.2 == n) = some v) : v ∈ l ∧ v.2 = n := by
  refine ⟨List.mem_of_find?_eq_some h, ?_⟩
  have := List.find?_some h
  simpa using this

/-- Claim C2: for every named operand type declared in the oparg registry and
every declared variant, decoding the variant's own declared raw encoding
through the generated `TryFrom<u32>` yields that variant back. -/
theorem named_decode_encode_roundtrip (flags : List (String × Nat))
    (m : String × Nat) (hf : flags ∈ allNamedOpargTypes) (hm : m ∈ flags) :
    tryFromInner flags m.2 = .ok m.1 := by
  have h : ∀ fl ∈ allNamedOpargTypes, ∀ mm ∈ fl, tryFromInner fl mm.2 = .ok mm.1 := by
    decide
  exact h flags hf m hm

/-- Witness for claim C2 at the `CmpOp` type and its `Lt` variant. -/
theorem named_decode_encode_roundtrip_witness :
    cmpOpFlags ∈ allNamedOpargTypes ∧ ("Lt", 2) ∈ cmpOpFlags ∧
      tryFromInner cmpOpFlags 2 = .ok "Lt" :=
  ⟨by decide, by decide,
   named_decode_encode_roundtrip cmpOpFlags ("Lt", 2) (by decide) (by decide)⟩

/-- Claim C1, counterexample: the raw value 0 matches no declared `CmpOp`
encoding, and the generated conversion rejects it with
`MarshalError::InvalidBytecode` — not with a distinct `InvalidOperand`
error, contrary to the claim. -/
theorem named_decode_error_counterexample :
    tryFromInner cmpOpFlags 0 = .error .InvalidBytecode ∧
      MarshalError.InvalidBytecode ≠ MarshalError.InvalidOperand := by
  constructor
  · decide
  · decide

/-- Claim C1 as amended: for every named operand type, decoding a raw value
that matches no declared variant encoding fails with `InvalidBytecode` (the
`ERR` constant of the generator), the same error variant used for numeric
opcodes outside the representable range, so the two failures are not
distinguishable by error variant. -/
theorem named_decode_error_invalid_bytecode (flags : List (String × Nat))
    (v : Nat) (_hf : flags ∈ allNamedOpargTypes) (hv : v ∉ flags.map Prod.snd) :
    tryFromInner flags v = .error .InvalidBytecode := by
  unfold tryFromInner
  rw [findByVal_eq_none hv]

/-- Witness for the amended claim C1 at the `CmpOp` type and raw value 0. -/
theorem named_decode_error_invalid_bytecode_witness :
    cmpOpFlags ∈ allNamedOpargTypes ∧ 0 ∉ cmpOpFlags.map Prod.snd ∧
      tryFromInner cmpOpFlags 0 = .error .InvalidBytecode :=
  ⟨by decide, by decide,
   named_decode_error_invalid_bytecode cmpOpFlags 0 (by decide) (by decide)⟩

/-- Claim C7: decoding a raw value equal to a `CmpOp` encoding shifted left
by 5 bits through the derived `TryFrom<CompareOparg>` conversion yields the
variant with that encoding; in particular `2 << 5` decodes to `Lt`. -/
theorem cmpop_shifted_decode (m : String × Nat) (hm : m ∈ cmpOpFlags) :
    cmpOpTryFromCompare (m.2 <<< 5) = .ok m.1 ∧
      cmpOpTryFromCompare (2 <<< 5) = .ok "Lt" := by
  constructor
  · revert m
    decide
  · decide

/-- Witness for claim C7 at the `Lt` variant. -/
theorem cmpop_shifted_decode_witness :
    ("Lt", 2) ∈ cmpOpFlags ∧ cmpOpTryFromCompare (2 <<< 5) = .ok "Lt" :=
  ⟨by decide, (cmpop_shifted_decode ("Lt", 2) (by decide)).2⟩

theorem lookup_of_mem_nodup {l : List (String × Nat)} {c : String} {n : Nat}
    (hnd : (l.map Prod.fst).Nodup) (hm : (c, n) ∈ l) : l.lookup c = some n := by
  induction l with
  | nil => cases hm
  | cons a l ih =>
    rw [List.map_cons, List.nodup_cons] at hnd
    rcases List.mem_cons.1 hm with h | h
    · subst h
      simp [List.lookup]
    · have hne : (c == a.1) = false := by
        simp only [beq_eq_false_iff_ne, ne_eq]
        intro hca
        exact hnd.1 (hca ▸ List.mem_map_of_mem Prod.fst h)
      rw [List.lookup, hne]
      exact ih hnd.2 h

theorem fromOpcode_ok {variants : List (String × Nat)} {n : Nat} {c : String}
    (h : fromOpcode variants n = .ok c) : (c, n) ∈ variants := by
  unfold fromOpcode at h
  cases hf : variants.find? (fun v => v.2 == n) with
  | none => rw [hf] at h; cases h
  | some v =>
    rw [hf] at h
    obtain ⟨hmem, hval⟩ := findByVal_some hf
    cases h
    have : v = (v.1, n) := by
      cases v
      simp_all
    exact this ▸ hmem

/-- Claim C3: over any emitted enum variant list with distinct discriminants
and distinct case names, the total case-to-opcode projection and the fallible
opcode-to-case injection are mutually inverse, and the injection fails with
`InvalidBytecode` on any numeric value that is no case's discriminant.
(`fromOpcode` is modelled from the spec; the generator emits only the
discriminant-carrying enum, whose `caseList` this quantifies over via the
variant list.) -/
theorem opcode_case_roundtrip (variants : List (String × Nat))
    (hsnd : (variants.map Prod.snd).Nodup) (hfst : (variants.map Prod.fst).Nodup) :
    (∀ cn ∈ variants, toOpcode variants cn.1 = some cn.2 ∧
        fromOpcode variants cn.2 = .ok cn.1) ∧
      (∀ n c, fromOpcode variants n = .ok c → toOpcode variants c = some n) ∧
      (∀ n, n ∉ variants.map Prod.snd →
        fromOpcode variants n = .error .InvalidBytecode) := by
  refine ⟨?_, ?_, ?_⟩
  · rintro ⟨c, n⟩ hm
    refine ⟨lookup_of_mem_nodup hfst hm, ?_⟩
    unfold fromOpcode
    rw [findByVal_mem hsnd hm]
  · intro n c h
    exact lookup_of_mem_nodup hfst (fromOpcode_ok h)
  · intro n hn
    unfold fromOpcode
    rw [findByVal_eq_none hn]

/-- Witness for claim C3 on the case list emitted for a two-instruction real
set with an injective opcode map. -/
theorem opcode_case_roundtrip_witness :
    (((caseList
        [⟨"LOAD_FAST", none, ⟨true, false, false, false, false, false, false⟩⟩]
        (fun s => if s == "LOAD_FAST" then 85 else 254)).map Prod.snd).Nodup ∧
      fromOpcode (caseList
        [⟨"LOAD_FAST", none, ⟨true, false, false, false, false, false, false⟩⟩]
        (fun s => if s == "LOAD_FAST" then 85 else 254)) 85 = .ok "LOAD_FAST") ∧
      fromOpcode (caseList
        [⟨"LOAD_FAST", none, ⟨true, false, false, false, false, false, false⟩⟩]
        (fun s => if s == "LOAD_FAST" then 85 else 254)) 3
        = .error .InvalidBytecode := by
  refine ⟨⟨by decide, ?_⟩, ?_⟩
  · exact ((opcode_case_roundtrip _ (by decide) (by decide)).1
      ("LOAD_FAST", 85) (by decide)).2
  · exact (opcode_case_roundtrip _ (by decide) (by decide)).2.2 3 (by decide)

/-- Claim C8: the generated `has_arg` returns true on an instruction case
exactly when that case's definition declared an operand (`properties.oparg`),
for any instruction set whose case is uniquely named in it. -/
theorem has_arg_iff_declared (insts : List Inst) (i : Inst) (hi : i ∈ insts)
    (hu : ∀ j ∈ insts, j.name = i.name → j = i) :
    hasArgFn insts i.name = true ↔ i.props.oparg = true := by
  constructor
  · intro h
    obtain ⟨j, hj, hprop⟩ := List.any_eq_true.1 h
    rw [Bool.and_eq_true, beq_iff_eq] at hprop
    have := hu j hj hprop.2
    exact this ▸ hprop.1
  · intro h
    exact List.any_eq_true.2 ⟨i, hi, by simp [h]⟩

/-- Witness for claim C8 on a two-instruction set where exactly one case
declares an operand. -/
theorem has_arg_iff_declared_witness :
    (hasArgFn
      [⟨"CACHE", none, ⟨false, false, false, false, false, false, false⟩⟩,
       ⟨"LOAD_FAST", none, ⟨true, false, false, false, false, false, false⟩⟩]
      "LOAD_FAST" = true ↔ True) ∧
      (hasArgFn
        [⟨"CACHE", none, ⟨false, false, false, false, false, false, false⟩⟩,
         ⟨"LOAD_FAST", none, ⟨true, false, false, false, false, false, false⟩⟩]
        "CACHE" = true ↔ False) := by
  constructor
  · rw [has_arg_iff_declared _
      ⟨"LOAD_FAST", none, ⟨true, false, false, false, false, false, false⟩⟩
      (by decide) (by decide)]
    simp
  · rw [has_arg_iff_declared _
      ⟨"CACHE", none, ⟨false, false, false, false, false, false, false⟩⟩
      (by decide) (by decide)]
    simp

/-- Claim C9: within each emitted instruction set taken separately, the case
discriminants are pairwise distinct, provided the iterated names are distinct
and the external opcode map assigns distinct opcodes to distinct names (the
property-source contract; the generator itself performs no duplicate
check). -/
theorem opcode_values_unique (insts : List Inst) (opmap : String → Nat)
    (hr : ((iterReal insts).map Inst.name).Nodup)
    (hrinj : ∀ x ∈ iterReal insts, ∀ y ∈ iterReal insts,
      opmap x.name = opmap y.name → x.name = y.name)
    (hp : ((iterPseudo insts).map Inst.name).Nodup)
    (hpinj : ∀ x ∈ iterPseudo insts, ∀ y ∈ iterPseudo insts,
      opmap x.name = opmap y.name → x.name = y.name) :
    ((caseList insts opmap).map Prod.snd).Nodup ∧
      ((caseListPseudo insts opmap).map Prod.snd).Nodup := by
  constructor
  · have : (caseList insts opmap).map Prod.snd
        = (iterReal insts).map (fun i => opmap i.name) := by
      simp [caseList]
    rw [this]
    refine List.Nodup.map_on ?_ (List.Nodup.of_map Inst.name hr)
    intro x hx y hy hxy
    have hnames := List.inj_on_of_nodup_map hr hx hy (hrinj x hx y hy hxy)
    exact hnames
  · have : (caseListPseudo insts opmap).map Prod.snd
        = (iterPseudo insts).map (fun i => opmap i.name) := by
      simp [caseListPseudo]
    rw [this]
    refine List.Nodup.map_on ?_ (List.Nodup.of_map Inst.name hp)
    intro x hx y hy hxy
    exact List.inj_on_of_nodup_map hp hx hy (hpinj x hx y hy hxy)

/-- Witness for claim C9 on a two-instruction real set and an empty pseudo
set with an injective opcode map. -/
theorem opcode_values_unique_witness :
    ((caseList
      [⟨"CACHE", none, ⟨false, false, false, false, false, false, false⟩⟩,
       ⟨"LOAD_FAST", none, ⟨true, false, false, false, false, false, false⟩⟩]
      (fun s => if s == "CACHE" then 0 else if s == "LOAD_FAST" then 85
                else 254)).map Prod.snd).Nodup :=
  (opcode_values_unique _ _ (by decide) (by decide) (by decide) (by decide)).1

theorem charListLe_total : ∀ (as bs : List Char),
    charListLe as bs = true ∨ charListLe bs as = true := by
  intro as
  induction as with
  | nil => intro bs; left; rfl
  | cons a as ih =>
    intro bs
    cases bs with
    | nil => right; rfl
    | cons b bs =>
      simp only [charListLe]
      rcases Nat.lt_trichotomy a.toNat b.toNat with h | h | h
      · left
        simp [h]
      · have h1 : ¬a.toNat < b.toNat := by omega
        have h2 : ¬b.toNat < a.toNat := by omega
        simp only [if_neg h1, if_neg h2]
        exact ih bs
      · right
        simp [h]

theorem charListLe_trans : ∀ (as bs cs : List Char), charListLe as bs = true →
    charListLe bs cs = true → charListLe as cs = true := by
  intro as
  induction as with
  | nil => intro bs cs _ _; rfl
  | cons a as ih =>
    intro bs cs h1 h2
    cases bs with
    | nil => simp [charListLe] at h1
    | cons b bs =>
      cases cs with
      | nil => simp [charListLe] at h2
      | cons c cs =>
        simp only [charListLe] at h1 h2 ⊢
        split_ifs at h1 h2 ⊢ <;>
          first
            | rfl
            | omega
            | exact ih bs cs h1 h2

instance : IsTotal Inst instLe :=
  ⟨fun a b => charListLe_total a.name.data b.name.data⟩

instance : IsTrans Inst instLe :=
  ⟨fun a b c => charListLe_trans a.name.data b.name.data c.name.data⟩

/-- Properties record with every flag cleared, for concrete examples. -/
def noProps : Properties :=
  ⟨false, false, false, false, false, false, false⟩

/-- Two real instructions whose name order disagrees with their opcode
order. -/
def instsC6 : List Inst :=
  [⟨"JUMP_BACKWARD", none, noProps⟩, ⟨"CALL", none, noProps⟩]

/-- An opcode map for `instsC6`. -/
def opmapC6 : String → Nat := fun s =>
  if s == "JUMP_BACKWARD" then 1 else if s == "CALL" then 2 else 0

/-- Claim C6, counterexample: iterating the model built from `instsC6` yields
the cases in name order `[CALL, INSTRUMENTED_LINE, JUMP_BACKWARD]`, whose
opcode sequence `[2, 0, 1]` is not sorted — the declared sort key is the
instruction name, not the numeric opcode. -/
theorem iteration_not_opcode_sorted :
    ((iterReal instsC6).map (fun i => opmapC6 i.name)) = [2, 0, 1] ∧
      ¬ List.Sorted (· ≤ ·) ((iterReal instsC6).map (fun i => opmapC6 i.name)) := by
  constructor
  · decide
  · decide

/-- Claim C6 as amended: for both the real and the pseudo set, iteration
yields the instruction definitions in a stable declared sort by instruction
name (Python `sorted` with the name as key), a permutation of the input
definitions (plus the appended `INSTRUMENTED_LINE` for the real set) — not
in insertion or reflection order, and not by opcode. -/
theorem iteration_sorted_by_name (insts : List Inst) :
    List.Sorted instLe (iterReal insts) ∧
      (iterReal insts).Perm (insts ++ [instrumentedLine]) ∧
      List.Sorted instLe (iterPseudo insts) ∧
      (iterPseudo insts).Perm insts :=
  ⟨List.sorted_insertionSort instLe _, List.perm_insertionSort instLe _,
   List.sorted_insertionSort instLe _, List.perm_insertionSort instLe _⟩

theorem mem_of_lookup_eq_some {l : List (String × String)} {k v : String}
    (h : l.lookup k = some v) : (k, v) ∈ l := by
  induction l with
  | nil => cases h
  | cons a l ih =>
    rw [List.lookup] at h
    cases hk : (k == a.1) with
    | true =>
      rw [hk] at h
      cases h
      have : k = a.1 := by simpa using hk
      exact List.mem_cons.2 (Or.inl (by cases a; simp_all))
    | false =>
      rw [hk] at h
      exact List.mem_cons.2 (Or.inr (ih h))

/-- The spec scenario for the deopt resolver: `A` with no family, `A_FAST`
with family `A`. -/
def scenarioInsts : List Inst :=
  [⟨"A", none, noProps⟩, ⟨"A_FAST", some "A", noProps⟩]

/-- A three-instruction chain: `A_FAST` has family `A`, which itself has
family `B`; the declared family references are acyclic. -/
def chainInsts : List Inst :=
  [⟨"A_FAST", some "A", noProps⟩, ⟨"A", some "B", noProps⟩, ⟨"B", none, noProps⟩]

/-- Claim C4, counterexample: the deopt table records only one declared
family step, so on the acyclic chain `A_FAST -> A -> B` the generated deopt
maps `A_FAST` to `A` and `A` to `B`: applying deopt twice to `A_FAST` gives
`B`, not `A` — deopt is not idempotent on every model the builder accepts. -/
theorem deopt_not_idempotent_counterexample :
    deoptTotal (iterReal chainInsts) "A_FAST" = "A" ∧
      deoptTotal (iterReal chainInsts) (deoptTotal (iterReal chainInsts) "A_FAST")
        = "B" ∧
      deoptTotal (iterReal chainInsts) (deoptTotal (iterReal chainInsts) "A_FAST")
        ≠ deoptTotal (iterReal chainInsts) "A_FAST" := by
  refine ⟨by decide, by decide, by decide⟩

/-- Claim C4 as amended: when every deopt-table target is itself family-less
(as in the source data, where family heads declare no family), deopt is
idempotent; and on the spec scenario `{A: no family, A_FAST: family A}` the
resolved deopt of `A_FAST` is `A` and of `A` is `A`. -/
theorem deopt_idempotent_flat (insts : List Inst)
    (hflat : ∀ p ∈ deoptTable insts, genDeopt insts p.2 = none) (x : String) :
    deoptTotal insts (deoptTotal insts x) = deoptTotal insts x ∧
      deoptTotal (iterReal scenarioInsts) "A_FAST" = "A" ∧
      deoptTotal (iterReal scenarioInsts) "A" = "A" := by
  refine ⟨?_, by decide, by decide⟩
  unfold deoptTotal
  cases h : genDeopt insts x with
  | none =>
    simp only [Option.getD_none]
    rw [h]
    rfl
  | some y =>
    simp only [Option.getD_some]
    have hy := hflat (x, y) (mem_of_lookup_eq_some h)
    rw [hy]
    rfl

/-- Witness for the amended claim C4 on the spec scenario. -/
theorem deopt_idempotent_flat_witness :
    deoptTotal (iterReal scenarioInsts)
        (deoptTotal (iterReal scenarioInsts) "A_FAST")
      = deoptTotal (iterReal scenarioInsts) "A_FAST" :=
  (deopt_idempotent_flat (iterReal scenarioInsts) (by decide) "A_FAST").1

/-- Cyclic family declarations: `A` has family `B` and `B` has family `A`. -/
def cyclicInsts : List Inst :=
  [⟨"A", some "B", noProps⟩, ⟨"B", some "A", noProps⟩]

/-- Claim C5: on cyclic family references the generator performs no cycle
detection — `Inst.oparg` recurses through the deopt table without a visited
set, so resolution never completes at any recursion depth (the source raises
`RecursionError` rather than a `CyclicDeoptChain` build error). -/
theorem cyclic_family_never_terminates : ∀ fuel : Nat,
    opargFuel (deoptTable (iterReal cyclicInsts)) (iterReal cyclicInsts) fuel
        ⟨"A", some "B", noProps⟩ = none ∧
      opargFuel (deoptTable (iterReal cyclicInsts)) (iterReal cyclicInsts) fuel
        ⟨"B", some "A", noProps⟩ = none := by
  intro fuel
  induction fuel with
  | zero => exact ⟨rfl, rfl⟩
  | succ n ih => exact ⟨ih.2, ih.1⟩

/-- Claim C10: wherever the family chain from an instruction resolves (to
`z`, necessarily family-less), the generated case payload of that
instruction is exactly `Oparg.try_from_instruction` of `z` — the same
payload its recursively resolved deopt target carries, so a specialized
case's operand type always agrees with its generic fallback's. -/
theorem specialized_oparg_matches_family (table : List (String × String))
    (insts : List Inst) : ∀ (n : Nat) (i z : Inst),
    resolveFuel table insts n i = some z →
    table.lookup z.name = none ∧
      opargFuel table insts n i
        = some (Oparg.tryFromInstruction z.name z.props) ∧
      opargFuel table insts (n + 1) z
        = some (Oparg.tryFromInstruction z.name z.props) := by
  intro n
  induction n with
  | zero => intro i z h; cases h
  | succ n ih =>
    intro i z h
    cases hl : table.lookup i.name with
    | none =>
      simp only [resolveFuel, hl] at h
      cases h
      refine ⟨hl, ?_, ?_⟩
      · simp only [opargFuel, hl]
      · simp only [opargFuel, hl]
    | some target =>
      simp only [resolveFuel, hl] at h
      cases ht : nameTable insts target with
      | none =>
        simp only [ht] at h
        cases h
      | some j =>
        simp only [ht] at h
        obtain ⟨hz, ho, _⟩ := ih j z h
        refine ⟨hz, ?_, ?_⟩
        · simp only [opargFuel, hl, ht]
          exact ho
        · simp only [opargFuel, hz]

/-- Instructions for the claim C10 witness: the specialized `A_FAST` declares
no oparg property of its own, while its family head `A` declares one. -/
def specializedInsts : List Inst :=
  [⟨"A", none, ⟨true, false, false, false, false, false, false⟩⟩,
   ⟨"A_FAST", some "A", noProps⟩]

/-- Witness for claim C10: the case generated for `A_FAST` carries its
family head's operand type (`Raw`), not its own (none). -/
theorem specialized_oparg_matches_family_witness :
    resolveFuel (deoptTable (iterReal specializedInsts))
        (iterReal specializedInsts) 2 ⟨"A_FAST", some "A", noProps⟩
      = some ⟨"A", none, ⟨true, false, false, false, false, false, false⟩⟩ ∧
      opargFuel (deoptTable (iterReal specializedInsts))
          (iterReal specializedInsts) 2 ⟨"A_FAST", some "A", noProps⟩
        = some (some .Raw) :=
  ⟨by decide,
   (specialized_oparg_matches_family (deoptTable (iterReal specializedInsts))
      (iterReal specializedInsts) 2 ⟨"A_FAST", some "A", noProps⟩
      ⟨"A", none, ⟨true, false, false, false, false, false, false⟩⟩
      (by decide)).2.1⟩

end OpcodeGen
